import Mathlib

/-!
Verification of the `hr_little_api` client runtime (hansonrobotics/hr-little-api).

Strings from the Python source are modelled as `List Char`.  Python's
`time.time()` values and `float` arithmetic on voltages/timestamps are
modelled over `ℚ` (the code only adds, subtracts, divides by 10 and
compares).  Fallible Python code (functions that may raise) returns
`Option`/`Except`/an error component.  Definitions follow the source files
`hr_little_api/json_api.py`, `hr_little_api/robot.py` and the two builder
constructions (`WaitCommandBuilder`, `CallbackCommandBuilder` from
`hr_little_api/builders.py`) that the dispatcher appends; the rest of the
builder DSL is out of scope.
-/

/-- Python strings are modelled as lists of characters. -/
abbrev Str := List Char

/-- Convert a Lean string literal to the `List Char` model. -/
def strL (s : String) : Str := s.toList

/-- The character `{` (written via its code point). -/
def lbrace : Char := Char.ofNat 123

/-- The character `}` (written via its code point). -/
def rbrace : Char := Char.ofNat 125

/-- The double-quote character. -/
def quoteC : Char := Char.ofNat 34

/-- The backslash character. -/
def backslashC : Char := Char.ofNat 92

/-- Decimal digit test, `'0' ≤ c ≤ '9'`. -/
def isDigitC (c : Char) : Bool := 48 ≤ c.toNat && c.toNat ≤ 57

/-- Whitespace as stripped by Python's `int()`/`float()` conversions. -/
def isSpaceC (c : Char) : Bool := c = ' ' || c = '\t' || c = '\n' || c = '\r'

/-- The digit character for a value `0 ≤ d ≤ 9`. -/
def digitChar (d : Nat) : Char := Char.ofNat (48 + d)

/-- Value of a string of decimal digits (most significant first). -/
def digitsToNat (s : Str) : Nat := s.foldl (fun a c => a * 10 + (c.toNat - 48)) 0

/-- Fuelled helper for `natDigits`; the fuel is structural so that the
function reduces inside the kernel. -/
def natDigitsAux : Nat → Nat → Str
  | 0, _ => []
  | fuel + 1, n =>
    if n < 10 then [digitChar n]
    else natDigitsAux fuel (n / 10) ++ [digitChar (n % 10)]

/-- Decimal digits of `n`, modelling Python's `str(n)` for a natural number. -/
def natDigits (n : Nat) : Str := natDigitsAux (n + 1) n

/-- Python's `str.zfill(width)` for sign-free strings: pad with `'0'` on the left. -/
def zfill (width : Nat) (s : Str) : Str := List.replicate (width - s.length) '0' ++ s

/-- Strip leading and trailing whitespace (as `int()`/`float()` do). -/
def trimWs (s : Str) : Str := ((s.dropWhile isSpaceC).reverse.dropWhile isSpaceC).reverse

/-- Model of Python's `int(s)` conversion: optional sign followed by decimal
digits, surrounding whitespace stripped; any other input raises `ValueError`
(`none`).  (Underscore separators are not modelled; no input in this
development contains them.) -/
def pyIntCore : Str → Option Int
  | [] => none
  | c :: ds =>
    if c = '-' then
      if !ds.isEmpty && ds.all isDigitC then some (-(digitsToNat ds : Int)) else none
    else if c = '+' then
      if !ds.isEmpty && ds.all isDigitC then some ((digitsToNat ds : Nat) : Int) else none
    else if (c :: ds).all isDigitC then some ((digitsToNat (c :: ds) : Nat) : Int)
    else none

/-- Model of Python's `int(s)`: strip whitespace, then convert. -/
def pyInt (s : Str) : Option Int := pyIntCore (trimWs s)

/-- Model of Python's `float(s)` on the decimal forms `[sign] digits [ . digits ]`
(whitespace stripped).  Exponents and the `inf`/`nan` spellings are not
modelled; every input in this development is a plain digit string.  The value
is represented exactly in `ℚ`. -/
def pyFloatBody (s : Str) : Option ℚ :=
  let intPart := s.takeWhile isDigitC
  let rest := s.dropWhile isDigitC
  match rest with
  | [] => if intPart.isEmpty then none else some (digitsToNat intPart : ℚ)
  | '.' :: r2 =>
    let frac := r2.takeWhile isDigitC
    let rest2 := r2.dropWhile isDigitC
    if rest2.isEmpty && (!intPart.isEmpty || !frac.isEmpty) then
      some ((digitsToNat intPart : ℚ) + (digitsToNat frac : ℚ) / (10 ^ frac.length))
    else none
  | _ => none

/-- Sign handling of Python's `float(s)` after whitespace stripping. -/
def pyFloatCore : Str → Option ℚ
  | [] => none
  | c :: r =>
    if c = '-' then (pyFloatBody r).map Neg.neg
    else if c = '+' then pyFloatBody r
    else pyFloatBody (c :: r)

/-- Model of Python's `float(s)`: see `pyFloatBody`. -/
def pyFloat (s : Str) : Option ℚ := pyFloatCore (trimWs s)

/-- Resolve a Python slice index against a string of length `n`: negative
indices count from the end, and the result is clamped into `[0, n]`. -/
def clampIndex (n : Nat) (i : Int) : Nat :=
  if i < 0 then ((n : Int) + i).toNat else min i.toNat n

/-- Python's `s[a:b]` slice with full negative-index and clamping semantics. -/
def pySlice (s : Str) (a b : Int) : Str :=
  (s.take (clampIndex s.length b)).drop (clampIndex s.length a)

/-- Index of the first occurrence of a character, if any. -/
def findCharIdx (c : Char) : Str → Option Nat
  | [] => none
  | x :: rest => if x = c then some 0 else (findCharIdx c rest).map (· + 1)

/-- Python's `s.find(c)` for a single-character needle: lowest index, or `-1`. -/
def pyFind (s : Str) (c : Char) : Int :=
  match findCharIdx c s with
  | some i => (i : Int)
  | none => -1

/-- Fuelled helper for `pyReplace`; the fuel is structural so that the
function reduces inside the kernel, and `s.length` fuel always suffices. -/
def pyReplaceAux (pat repl : Str) : Nat → Str → Str
  | 0, s => s
  | fuel + 1, s =>
    match s with
    | [] => []
    | c :: rest =>
      if pat.isPrefixOf (c :: rest) && !pat.isEmpty then
        repl ++ pyReplaceAux pat repl fuel (rest.drop (pat.length - 1))
      else
        c :: pyReplaceAux pat repl fuel rest

/-- Python's `s.replace(pat, repl)` for a non-empty pattern: replace every
non-overlapping occurrence, scanning left to right. -/
def pyReplace (pat repl s : Str) : Str := pyReplaceAux pat repl s.length s

/-! ## json_api.py -/

/-- `json_api.generate_id`, with the value of `str(uuid.uuid1())` supplied as
the argument `u`: `"cb." + str(uuid.uuid1()).replace('-', '')[:-10]`. -/
def generate_id (u : Str) : Str :=
  let hex := pyReplace (strL ("-")) [] u
  strL ("cb.") ++ hex.take (hex.length - 10)

/-- `json_api.json_length`: the 6-digit zero-padded decimal length prefix of a
message body; bodies longer than 4090 raise `ValueError` (`none`). -/
def json_length (msg_body : Str) : Option Str :=
  let length := msg_body.length
  if length > 4090 then none
  else some (zfill 6 (natDigits length))

/-- Body of `json_api.echo_cmd`. -/
def echo_body : Str := strL ("\x7b\"cmd\":\"echo\"\x7d")

/-- `json_api.echo_cmd`: `json_length(msg_body) + msg_body`. -/
def echo_cmd : Option Str := (json_length echo_body).map (· ++ echo_body)

/-- Body of `json_api.push_ping_cmd`. -/
def push_ping_body : Str := strL ("\x7b\"cmd\":\"pushping\"\x7d")

/-- `json_api.push_ping_cmd`. -/
def push_ping_cmd : Option Str := (json_length push_ping_body).map (· ++ push_ping_body)

/-- Body of `json_api.voltage_cmd`. -/
def voltage_body : Str := strL ("\x7b\"cmd\":\"voltage\"\x7d")

/-- `json_api.voltage_cmd`. -/
def voltage_cmd : Option Str := (json_length voltage_body).map (· ++ voltage_body)

/-- Body built by `json_api.activity_cmd`:
`'{"cmd":"activity.recieved","data":{"output":"' + cmd + '"}}'`. -/
def activity_body (cmd : Str) : Str :=
  strL ("\x7b\"cmd\":\"activity.recieved\",\"data\":\x7b\"output\":\"") ++ cmd ++ strL ("\"\x7d\x7d")

/-- `json_api.activity_cmd`: length-frame the activity body (raising if the
body exceeds 4090 characters). -/
def activity_cmd (cmd : Str) : Option Str :=
  (json_length (activity_body cmd)).map (· ++ activity_body cmd)

/-! ## A model of Python's `json.loads`

`json.loads` is standard-library code the repository relies on.  It is
modelled by a fuelled recursive-descent parser over the grammar of JSON
values.  Numbers carry their exact value in `ℚ` (exponent notation and the
non-standard `Infinity`/`NaN` spellings are not modelled; no input in this
development uses them).  A failed parse models `json.JSONDecodeError`, which
is a subclass of `ValueError`. -/

inductive Json where
  | null : Json
  | bool (b : Bool) : Json
  | num (q : ℚ) : Json
  | str (s : Str) : Json
  | arr (elems : List Json) : Json
  | obj (members : List (Str × Json)) : Json

/-- Skip JSON whitespace (the same four characters as `isSpaceC`). -/
def skipWs : Str → Str
  | [] => []
  | c :: rest => if isSpaceC c then skipWs rest else c :: rest

/-- Translate a simple escape character inside a JSON string. -/
def escChar (c : Char) : Option Char :=
  if c = quoteC then some quoteC
  else if c = backslashC then some backslashC
  else if c = '/' then some '/'
  else if c = 'b' then some (Char.ofNat 8)
  else if c = 'f' then some (Char.ofNat 12)
  else if c = 'n' then some '\n'
  else if c = 'r' then some '\r'
  else if c = 't' then some '\t'
  else none

/-- Value of a hexadecimal digit. -/
def hexVal (c : Char) : Option Nat :=
  if 48 ≤ c.toNat && c.toNat ≤ 57 then some (c.toNat - 48)
  else if 97 ≤ c.toNat && c.toNat ≤ 102 then some (c.toNat - 87)
  else if 65 ≤ c.toNat && c.toNat ≤ 70 then some (c.toNat - 55)
  else none

/-- Parse the remainder of a JSON string literal (the opening quote has been
consumed): characters up to the closing quote, handling escapes and rejecting
unescaped control characters, as Python's strict-mode scanner does.
(Surrogate pairs in `\uXXXX` escapes are mapped code unit by code unit.) -/
def parseStringBody : Str → Option (Str × Str)
  | [] => none
  | c :: rest =>
    if c = quoteC then some ([], rest)
    else if c = backslashC then
      match rest with
      | [] => none
      | e :: rest2 =>
        if e = 'u' then
          match rest2 with
          | h1 :: h2 :: h3 :: h4 :: r3 =>
            match hexVal h1, hexVal h2, hexVal h3, hexVal h4 with
            | some a, some b, some c2, some d =>
              (parseStringBody r3).map (fun p => (Char.ofNat (((a * 16 + b) * 16 + c2) * 16 + d) :: p.1, p.2))
            | _, _, _, _ => none
          | _ => none
        else
          match escChar e with
          | some ec => (parseStringBody rest2).map (fun p => (ec :: p.1, p.2))
          | none => none
    else if c.toNat < 32 then none
    else (parseStringBody rest).map (fun p => (c :: p.1, p.2))

/-- Parse a JSON number (integer or decimal fraction). -/
def parseNumber (s : Str) : Option (ℚ × Str) :=
  let signStripped : Bool × Str :=
    match s with
    | [] => (false, [])
    | c :: r => if c = '-' then (true, r) else (false, c :: r)
  let neg := signStripped.1
  let s1 := signStripped.2
  let intPart := s1.takeWhile isDigitC
  let s2 := s1.dropWhile isDigitC
  if intPart.isEmpty then none
  else if intPart.length > 1 && intPart.headD '0' = '0' then none
  else
    let iv : ℚ := (digitsToNat intPart : ℚ)
    match s2 with
    | '.' :: r2 =>
      let frac := r2.takeWhile isDigitC
      let s3 := r2.dropWhile isDigitC
      if frac.isEmpty then none
      else
        let v := iv + (digitsToNat frac : ℚ) / (10 ^ frac.length)
        some (if neg then -v else v, s3)
    | _ => some (if neg then -iv else iv, s2)

mutual

/-- Parse a JSON value, consuming leading whitespace; `fuel` bounds the
recursion depth and is instantiated with more than the input length. -/
def parseValue : Nat → Str → Option (Json × Str)
  | 0, _ => none
  | fuel + 1, s =>
    match skipWs s with
    | [] => none
    | c :: rest =>
      if c = lbrace then
        match skipWs rest with
        | [] => none
        | c2 :: r2 =>
          if c2 = rbrace then some (Json.obj [], r2)
          else (parseMembers fuel (c2 :: r2)).map (fun p => (Json.obj p.1, p.2))
      else if c = '[' then
        match skipWs rest with
        | [] => none
        | c2 :: r2 =>
          if c2 = ']' then some (Json.arr [], r2)
          else (parseElems fuel (c2 :: r2)).map (fun p => (Json.arr p.1, p.2))
      else if c = quoteC then
        (parseStringBody rest).map (fun p => (Json.str p.1, p.2))
      else if c = 't' then
        if (strL ("rue")).isPrefixOf rest then some (Json.bool true, rest.drop 3) else none
      else if c = 'f' then
        if (strL ("alse")).isPrefixOf rest then some (Json.bool false, rest.drop 4) else none
      else if c = 'n' then
        if (strL ("ull")).isPrefixOf rest then some (Json.null, rest.drop 3) else none
      else
        (parseNumber (c :: rest)).map (fun p => (Json.num p.1, p.2))

/-- Parse the members of a JSON object after its opening brace (at least one
member; the empty object is handled in `parseValue`). -/
def parseMembers : Nat → Str → Option (List (Str × Json) × Str)
  | 0, _ => none
  | fuel + 1, s =>
    match skipWs s with
    | [] => none
    | c :: rest =>
      if c = quoteC then
        match parseStringBody rest with
        | none => none
        | some (key, r1) =>
          match skipWs r1 with
          | [] => none
          | c2 :: r2 =>
            if c2 = ':' then
              match parseValue fuel r2 with
              | none => none
              | some (v, r3) =>
                match skipWs r3 with
                | [] => none
                | c4 :: r4 =>
                  if c4 = ',' then (parseMembers fuel r4).map (fun p => ((key, v) :: p.1, p.2))
                  else if c4 = rbrace then some ([(key, v)], r4)
                  else none
            else none
      else none

/-- Parse the elements of a JSON array after its opening bracket (at least one
element). -/
def parseElems : Nat → Str → Option (List Json × Str)
  | 0, _ => none
  | fuel + 1, s =>
    match parseValue fuel s with
    | none => none
    | some (v, r1) =>
      match skipWs r1 with
      | [] => none
      | c2 :: r2 =>
        if c2 = ',' then (parseElems fuel r2).map (fun p => (v :: p.1, p.2))
        else if c2 = ']' then some ([v], r2)
        else none

end

/-- Model of Python's `json.loads`: parse one JSON value and require only
whitespace to remain. -/
def json_loads (s : Str) : Option Json :=
  match parseValue (s.length + 1) s with
  | some (j, rest) => if (skipWs rest).isEmpty then some j else none
  | none => none

/-! ## Python runtime errors and dynamic-typing semantics -/

/-- The Python exception classes that `Robot._data_received_cb` and
`Robot._update_state` can raise.  Only `ValueError` (and its subclass
`json.JSONDecodeError`) is caught by the `except ValueError` clause. -/
inductive PyErr where
  | valueError : PyErr
  | typeError : PyErr
  | keyError : PyErr
  | attributeError : PyErr
deriving DecidableEq, Repr

/-- Boolean substring test: does `needle` occur inside `hay`? -/
def hasInfix (hay needle : Str) : Bool :=
  match hay with
  | [] => needle.isEmpty
  | _ :: rest => needle.isPrefixOf hay || hasInfix rest needle

/-- Python's `key in data` for a parsed-JSON value: key membership for a
dict, element equality for a list, substring test for a string, and
`TypeError` for the non-container types. -/
def pyContains (data : Json) (key : Str) : Except PyErr Bool :=
  match data with
  | Json.obj kvs => .ok (kvs.any (fun kv => decide (kv.1 = key)))
  | Json.arr xs => .ok (xs.any (fun x => match x with | Json.str s => decide (s = key) | _ => false))
  | Json.str s => .ok (hasInfix s key)
  | _ => .error .typeError

/-- Python's `data[key]` for a parsed-JSON value and a string key: dict lookup
(`KeyError` when absent; the last duplicate key wins, as in `dict`
construction) and `TypeError` for every other type. -/
def pyGetItem (data : Json) (key : Str) : Except PyErr Json :=
  match data with
  | Json.obj kvs =>
    match kvs.reverse.find? (fun kv => decide (kv.1 = key)) with
    | some kv => .ok kv.2
    | none => .error .keyError
  | _ => .error .typeError

/-! ## robot.py: action-handle registry, dispatcher, keep-alive, decoder -/

/-- Python `dict` assignment `d[k] = v` on an insertion-ordered association
list: overwrite in place when the key exists, append otherwise. -/
def dictSet (d : List (Str × Nat)) (k : Str) (v : Nat) : List (Str × Nat) :=
  if d.any (fun kv => decide (kv.1 = k)) then
    d.map (fun kv => if kv.1 = k then (k, v) else kv)
  else d ++ [(k, v)]

/-- Python `dict` lookup `d[k]` (first matching key; keys are unique in a
genuine `dict`). -/
def dictGet (d : List (Str × Nat)) (k : Str) : Option Nat :=
  (d.find? (fun kv => decide (kv.1 = k))).map Prod.snd

/-- Python `dict.pop(k)`: remove the entry for `k`. -/
def dictPop (d : List (Str × Nat)) (k : Str) : List (Str × Nat) :=
  d.filter (fun kv => decide (kv.1 ≠ k))

/-- `Robot._add_action_handle`: register a freshly created handle under its id
with occurrence count 0 (`self._action_handles[handle.id] = (0, handle)`).
The handle itself is identified by its id; only the count is stored. -/
def add_action_handle (handles : List (Str × Nat)) (id : Str) : List (Str × Nat) :=
  dictSet handles id 0

/-- `Robot._set_action_handle_done`: on a trigger for `action_id`, increment
the occurrence count; on the second occurrence remove the entry and return
the id of the handle whose `done()` is to be fired; an unknown id is logged
and ignored. -/
def set_action_handle_done (handles : List (Str × Nat)) (action_id : Str) :
    List (Str × Nat) × Option Str :=
  match dictGet handles action_id with
  | some count =>
    let c := count + 1
    if c > 1 then (dictPop handles action_id, some action_id)
    else (dictSet handles action_id c, none)
  | none => (handles, none)

/-- Observable state of one `ActionHandle`: whether `self.event_` has been
set (what `wait()` blocks on) and the log of callback invocations, recorded
as the registration index of each callback invoked, in invocation order. -/
structure HandleState where
  eventSet : Bool
  callbackLog : List Nat
deriving DecidableEq, Repr

/-- A fresh `ActionHandle`: event clear, no callback has run. -/
def freshHandle : HandleState := { eventSet := false, callbackLog := [] }

/-- `ActionHandle.done` for a handle with `numCallbacks` registered
callbacks: set the event, then call every callback in registration order.
There is no guard against repeated invocation. -/
def ActionHandle_done (numCallbacks : Nat) (h : HandleState) : HandleState :=
  { eventSet := true, callbackLog := h.callbackLog ++ List.range numCallbacks }

/-- `Robot.__init__`: `self._keep_alive_secs = 9.0`. -/
def keep_alive_secs : ℚ := 9

/-- The inert no-op command `activity_cmd(" ")` sent by the keep-alive loop. -/
def keepAliveNoOp : Str := (activity_cmd (strL (" "))).getD []

/-- One iteration of the `Robot._keep_alive` loop body, as a function of the
current clock value, the last-command timestamp and the action-active flag:
returns the message sent (if any) and the new last-command timestamp. -/
def keep_alive_tick (now last_cmd_time : ℚ) (is_action_active : Bool) :
    Option Str × ℚ :=
  let secs_since_last_cmd := now - last_cmd_time
  if is_action_active = false ∧ secs_since_last_cmd > keep_alive_secs then
    (some keepAliveNoOp, now)
  else (none, last_cmd_time)

/-- `CallbackType.end.value` from builders.py. -/
def CallbackType_end_value : Str := strL ("TE")

/-- `CallbackCommandBuilder.build` for `callback_end(id)`:
`"<{}={}>".format('TE', callback_id)`. -/
def callback_end_build (callback_id : Str) : Str :=
  strL ("<") ++ CallbackType_end_value ++ strL ("=") ++ callback_id ++ strL (">")

/-- `WaitCommandBuilder.build` for `wait_for_motors_and_speaking()`: the
`__COMMANDS` entry for `WaitType.wait_for_motors_and_speaking`. -/
def wait_for_motors_and_speaking_build : Str := strL ("<PA>")

/-- The command fragment built by `Robot.say` (line 245):
`builder.build() + callback_end(handle.id).build()`. -/
def say_fragment (builder_output handle_id : Str) : Str :=
  builder_output ++ callback_end_build handle_id

/-- The command fragment built by `Robot.animate` (lines 361-362):
`builder.build() + " " + wait_for_motors_and_speaking().build() + callback_end(handle.id).build()`. -/
def animate_fragment (builder_output handle_id : Str) : Str :=
  builder_output ++ strL (" ") ++ wait_for_motors_and_speaking_build ++ callback_end_build handle_id

/-- The command fragment built by `Robot.do` (lines 380-381), identical in
shape to `animate`. -/
def do_fragment (builder_output handle_id : Str) : Str :=
  builder_output ++ strL (" ") ++ wait_for_motors_and_speaking_build ++ callback_end_build handle_id

/-- The framed wire message sent by `Robot.say`. -/
def say_sent (builder_output handle_id : Str) : Option Str :=
  activity_cmd (say_fragment builder_output handle_id)

/-- The framed wire message sent by `Robot.animate`. -/
def animate_sent (builder_output handle_id : Str) : Option Str :=
  activity_cmd (animate_fragment builder_output handle_id)

/-- The framed wire message sent by `Robot.do`. -/
def do_sent (builder_output handle_id : Str) : Option Str :=
  activity_cmd (do_fragment builder_output handle_id)

/-- The mutable robot state read and written by `Robot._update_state`:
firmware version (a parsed-JSON value, initially the string `""`), battery
voltage (`none` models the initial `float("NaN")`), the action-handle
registry, and the log of handle ids whose `done()` has been fired by trigger
resolution, in firing order. -/
structure RState where
  version : Json
  voltage : Option ℚ
  handles : List (Str × Nat)
  fired : List Str

/-- The state set up by `Robot.__init__`. -/
def initRState : RState :=
  { version := Json.str [], voltage := none, handles := [], fired := [] }

/-- Models the guard `self.version is ''`.  In CPython the empty string is
interned (a singleton object), and the JSON scanner returns that singleton
for an empty string value, so identity with the literal `''` coincides with
being the empty-string value. -/
def version_is_empty_str (v : Json) : Bool :=
  match v with
  | Json.str s => s.isEmpty
  | _ => false

/-- `Robot._update_state`, including Python's dynamic-typing failure modes:
returns the state after the statements that executed before any exception,
plus the exception raised (if any).  A raised `ValueError` is caught by the
caller `_data_received_cb`; any other exception escapes. -/
def update_state (st : RState) (data : Json) : RState × Option PyErr :=
  match pyContains data (strL ("device")) with
  | .error e => (st, some e)
  | .ok hasDevice =>
    let versioned : Except PyErr RState :=
      if hasDevice && version_is_empty_str st.version then
        match pyGetItem data (strL ("device")) with
        | .error e => .error e
        | .ok dev =>
          match pyGetItem dev (strL ("version")) with
          | .error e => .error e
          | .ok v => .ok { st with version := v }
      else .ok st
    match versioned with
    | .error e => (st, some e)
    | .ok st1 =>
      match pyContains data (strL ("trigger")) with
      | .error e => (st1, some e)
      | .ok hasTrigger =>
        if hasTrigger then
          match pyGetItem data (strL ("trigger")) with
          | .error e => (st1, some e)
          | .ok trig =>
            match trig with
            | Json.str t =>
              if (strL ("voltage.")).isPrefixOf t then
                match pyFloat (pyReplace (strL ("voltage.")) [] t) with
                | none => (st1, some .valueError)
                | some q => ({ st1 with voltage := some (q / 10) }, none)
              else if (strL ("cb.")).isPrefixOf t then
                let r := set_action_handle_done st1.handles t
                ({ st1 with handles := r.1, fired := st1.fired ++ r.2.toList }, none)
              else (st1, none)
            | _ => (st1, some .attributeError)
        else (st1, none)

/-- Outcome of one `Robot._data_received_cb` invocation: the whole read
consumed (`ok`), a `ValueError` caught by the `except` clause (the remainder
of the read is discarded and logged), an exception of another class escaping
the callback, or fuel exhaustion (never reached in any theorem below). -/
inductive Outcome where
  | ok : Outcome
  | caughtValueError : Outcome
  | uncaught (e : PyErr) : Outcome
  | fuelOut : Outcome
deriving DecidableEq, Repr

/-- One iteration of the parsing loop in `Robot._data_received_cb`:
```
start_index = prev_index + msg[prev_index:].find('{')
sub_msg_len = int(msg[prev_index:start_index])
end_index = start_index + sub_msg_len
sub_msg = msg[start_index:end_index]
data = json.loads(sub_msg)
```
`int()` and `json.loads` raise `ValueError` on failure. -/
def decodeStep (msg : Str) (prev_index : Int) : Except PyErr (Json × Int) :=
  let start_index : Int := prev_index + pyFind (pySlice msg prev_index msg.length) lbrace
  match pyInt (pySlice msg prev_index start_index) with
  | none => .error .valueError
  | some sub_msg_len =>
    let end_index := start_index + sub_msg_len
    let sub_msg := pySlice msg start_index end_index
    match json_loads sub_msg with
    | none => .error .valueError
    | some data => .ok (data, end_index)

/-- The `while prev_index < msg_len` loop of `Robot._data_received_cb`,
wrapped in its `try`/`except ValueError`.  Returns the final state, the
parsed objects handed to `_update_state` in order, and the outcome.  The
fuel only bounds the iteration count; it is instantiated with more than the
message length, which the theorems below show is sufficient. -/
def decodeLoop (msg : Str) : Nat → Int → RState → List Json → RState × List Json × Outcome
  | 0, _, st, acc => (st, acc.reverse, .fuelOut)
  | fuel + 1, prev_index, st, acc =>
    if prev_index < (msg.length : Int) then
      match decodeStep msg prev_index with
      | .error _ => (st, acc.reverse, .caughtValueError)
      | .ok (data, end_index) =>
        match update_state st data with
        | (st2, none) => decodeLoop msg fuel end_index st2 (data :: acc)
        | (st2, some PyErr.valueError) => (st2, (data :: acc).reverse, .caughtValueError)
        | (st2, some e) => (st2, (data :: acc).reverse, .uncaught e)
    else (st, acc.reverse, .ok)

/-- `Robot._data_received_cb` for one raw read `msg`. -/
def data_received_cb (st : RState) (msg : Str) : RState × List Json × Outcome :=
  decodeLoop msg (msg.length + 1) 0 st []

/-- A well-formed wire envelope for a message body: the 6-digit zero-padded
decimal length prefix followed by the body. -/
def envelopeOf (body : Str) : Str := zfill 6 (natDigits body.length) ++ body

/-- Concatenation of the envelopes of a list of bodies. -/
def concatEnvelopes (items : List (Str × Json)) : Str :=
  (items.map (fun bj => envelopeOf bj.1)).flatten

/-- The processing conditions under which the decoder delivers every envelope
of a read: each body starts with `{`, fits in a 6-digit length prefix,
parses as the given JSON value, and updating the state on that value raises
no exception; `st'` is the state after processing them all. -/
def envelopesOk : RState → List (Str × Json) → RState → Prop
  | st, [], st' => st' = st
  | st, (b, j) :: rest, st' =>
    b.head? = some lbrace ∧ b.length ≤ 999999 ∧ json_loads b = some j ∧
      ∃ stm, update_state st j = (stm, none) ∧ envelopesOk stm rest st'

/-! ## Basic arithmetic and string lemmas -/

theorem digitChar_toNat : ∀ d, d < 10 → (digitChar d).toNat = 48 + d := by decide

theorem isDigitC_digitChar : ∀ d, d < 10 → isDigitC (digitChar d) = true := by decide

theorem natDigitsAux_irrel (fuel1 fuel2 n : Nat) (h1 : n < fuel1) (h2 : n < fuel2) :
    natDigitsAux fuel1 n = natDigitsAux fuel2 n := by
  induction n using Nat.strong_induction_on generalizing fuel1 fuel2 with
  | _ n ih =>
    cases fuel1 with
    | zero => omega
    | succ f1 =>
      cases fuel2 with
      | zero => omega
      | succ f2 =>
        rw [natDigitsAux, natDigitsAux]
        by_cases hn : n < 10
        · rw [if_pos hn, if_pos hn]
        · rw [if_neg hn, if_neg hn]
          have hdiv : n / 10 < n := Nat.div_lt_self (by omega) (by omega)
          rw [ih (n / 10) hdiv f1 f2 (by omega) (by omega)]

theorem natDigits_eq (n : Nat) (hn10 : ¬ n < 10) :
    natDigits n = natDigits (n / 10) ++ [digitChar (n % 10)] := by
  rw [natDigits, natDigitsAux, if_neg hn10, natDigits]
  have hdiv : n / 10 < n := Nat.div_lt_self (by omega) (by omega)
  rw [natDigitsAux_irrel n (n / 10 + 1) (n / 10) (by omega) (by omega)]

theorem natDigits_eq_base (n : Nat) (hn10 : n < 10) : natDigits n = [digitChar n] := by
  rw [natDigits, natDigitsAux, if_pos hn10]

theorem natDigits_ne_nil (n : Nat) : natDigits n ≠ [] := by
  by_cases hn : n < 10
  · rw [natDigits_eq_base n hn]
    simp
  · rw [natDigits_eq n hn]
    simp

theorem natDigits_all_digits (n : Nat) : (natDigits n).all isDigitC = true := by
  induction n using Nat.strong_induction_on with
  | _ n ih =>
    by_cases h : n < 10
    · rw [natDigits_eq_base n h]
      simp [isDigitC_digitChar n h]
    · rw [natDigits_eq n h]
      rw [List.all_append]
      simp only [Bool.and_eq_true]
      refine ⟨ih (n / 10) (Nat.div_lt_self (by omega) (by omega)), ?_⟩
      simp [isDigitC_digitChar (n % 10) (Nat.mod_lt _ (by omega))]

theorem natDigits_length_le (k n : Nat) (h : n < 10 ^ (k + 1)) :
    (natDigits n).length ≤ k + 1 := by
  induction k generalizing n with
  | zero =>
    rw [pow_one] at h
    rw [natDigits_eq_base n h]
    simp
  | succ k ih =>
    by_cases hn : n < 10
    · rw [natDigits_eq_base n hn]
      simp
    · rw [natDigits_eq n hn]
      have hdiv : n / 10 < 10 ^ (k + 1) := by
        rw [Nat.div_lt_iff_lt_mul (by omega : (0:Nat) < 10), ← pow_succ]
        exact h
      have := ih (n / 10) hdiv
      simp only [List.length_append, List.length_cons, List.length_nil]
      omega

theorem digitsToNat_concat (xs : Str) (c : Char) :
    digitsToNat (xs ++ [c]) = 10 * digitsToNat xs + (c.toNat - 48) := by
  simp only [digitsToNat, List.foldl_append, List.foldl_cons, List.foldl_nil]
  omega

theorem digitsToNat_natDigits (n : Nat) : digitsToNat (natDigits n) = n := by
  induction n using Nat.strong_induction_on with
  | _ n ih =>
    by_cases h : n < 10
    · rw [natDigits_eq_base n h]
      simp only [digitsToNat, List.foldl_cons, List.foldl_nil]
      rw [digitChar_toNat n h]
      omega
    · rw [natDigits_eq n h]
      rw [digitsToNat_concat, ih (n / 10) (Nat.div_lt_self (by omega) (by omega)),
        digitChar_toNat (n % 10) (Nat.mod_lt _ (by omega))]
      omega

theorem digitsToNat_zeros (k : Nat) (s : Str) :
    digitsToNat (List.replicate k '0' ++ s) = digitsToNat s := by
  induction k with
  | zero => simp
  | succ k ih =>
    simp only [List.replicate_succ, List.cons_append]
    show List.foldl _ _ _ = _
    simp only [List.foldl_cons]
    have h0 : (0 : Nat) * 10 + (('0' : Char).toNat - 48) = 0 := by decide
    rw [h0]
    exact ih

theorem zfill_length (w : Nat) (s : Str) (h : s.length ≤ w) : (zfill w s).length = w := by
  simp [zfill]
  omega

theorem zfill_all_digits (w : Nat) (s : Str) (h : s.all isDigitC = true) :
    (zfill w s).all isDigitC = true := by
  simp only [zfill, List.all_append, Bool.and_eq_true]
  refine ⟨?_, h⟩
  simp only [List.all_eq_true]
  intro c hc
  rw [List.eq_of_mem_replicate hc]
  decide

theorem digitsToNat_zfill (w : Nat) (s : Str) : digitsToNat (zfill w s) = digitsToNat s :=
  digitsToNat_zeros _ _

theorem isSpaceC_eq_false_of_isDigitC (c : Char) (h : isDigitC c = true) :
    isSpaceC c = false := by
  by_contra hs
  rw [Bool.not_eq_false] at hs
  simp only [isSpaceC, Bool.or_eq_true, decide_eq_true_eq] at hs
  rcases hs with ((h1 | h1) | h1) | h1 <;> subst h1 <;> revert h <;> decide

theorem trimWs_eq_self (s : Str) (h : ∀ c ∈ s, isSpaceC c = false) : trimWs s = s := by
  have h1 : s.dropWhile isSpaceC = s := by
    cases s with
    | nil => rfl
    | cons c rest =>
      rw [List.dropWhile_cons_of_neg]
      simp [h c (by simp)]
  rw [trimWs, h1]
  have h2 : s.reverse.dropWhile isSpaceC = s.reverse := by
    cases hr : s.reverse with
    | nil => rfl
    | cons c rest =>
      rw [List.dropWhile_cons_of_neg]
      have hcm : c ∈ s := by
        rw [← List.mem_reverse, hr]
        simp
      simp [h c hcm]
  rw [h2, List.reverse_reverse]

theorem isDigitC_ne_minus (c : Char) (h : isDigitC c = true) : c ≠ '-' := by
  rintro rfl
  revert h
  decide

theorem isDigitC_ne_plus (c : Char) (h : isDigitC c = true) : c ≠ '+' := by
  rintro rfl
  revert h
  decide

theorem pyInt_of_digits (s : Str) (hne : s ≠ []) (hd : s.all isDigitC = true) :
    pyInt s = some ((digitsToNat s : Nat) : Int) := by
  have htrim : trimWs s = s := by
    apply trimWs_eq_self
    intro c hc
    exact isSpaceC_eq_false_of_isDigitC c (List.all_eq_true.mp hd c hc)
  cases s with
  | nil => exact absurd rfl hne
  | cons c ds =>
    have hc : isDigitC c = true := List.all_eq_true.mp hd c (by simp)
    rw [pyInt, htrim, pyIntCore]
    rw [if_neg (isDigitC_ne_minus c hc), if_neg (isDigitC_ne_plus c hc), if_pos hd]

theorem pyInt_zfill_natDigits (L : Nat) (h : L ≤ 999999) :
    pyInt (zfill 6 (natDigits L)) = some (L : Int) := by
  have hlen : (natDigits L).length ≤ 6 := natDigits_length_le 5 L (by norm_num; omega)
  have hne : zfill 6 (natDigits L) ≠ [] := by
    have := zfill_length 6 (natDigits L) hlen
    intro hcon
    rw [hcon] at this
    simp at this
  rw [pyInt_of_digits _ hne (zfill_all_digits _ _ (natDigits_all_digits L)),
    digitsToNat_zfill, digitsToNat_natDigits]

/-! ## C6: outbound framing bounds -/

/-- C6: for every message body, `json_length` returns the 6-digit zero-padded
decimal encoding of the body length when that length is at most 4090, and
raises `ValueError` at construction time (`none`, so nothing is sent) when
the length exceeds 4090; in particular a 4091-character body is rejected. -/
theorem json_length_spec :
    (∀ body : Str, body.length ≤ 4090 →
      json_length body = some (zfill 6 (natDigits body.length)) ∧
        (zfill 6 (natDigits body.length)).length = 6 ∧
        (zfill 6 (natDigits body.length)).all isDigitC = true ∧
        digitsToNat (zfill 6 (natDigits body.length)) = body.length) ∧
    (∀ body : Str, 4090 < body.length → json_length body = none) ∧
    json_length (List.replicate 4091 'a') = none := by
  refine ⟨?_, ?_, ?_⟩
  · intro body h
    have hlen : (natDigits body.length).length ≤ 6 :=
      natDigits_length_le 5 _ (by norm_num; omega)
    refine ⟨?_, zfill_length 6 _ hlen, zfill_all_digits _ _ (natDigits_all_digits _), ?_⟩
    · simp only [json_length]
      rw [if_neg (by omega)]
    · rw [digitsToNat_zfill, digitsToNat_natDigits]
  · intro body h
    simp only [json_length]
    rw [if_pos (by omega)]
  · simp only [json_length]
    rw [if_pos (by rw [List.length_replicate]; norm_num)]

/-- Witness for `json_length_spec` at a concrete 3-character body. -/
theorem json_length_spec_witness :
    json_length (strL ("abc")) = some (zfill 6 (natDigits (strL ("abc")).length)) :=
  (json_length_spec.1 (strL ("abc")) (by decide)).1

/-! ## C7: keep-alive tick -/

/-- C7: on each iteration of the keep-alive loop, the inert no-op command
`activity_cmd(" ")` is sent and the last-command timestamp is reset to the
current time exactly when no action is in flight and more than
`keep_alive_secs = 9` seconds have elapsed since the last command; in
particular no keep-alive send occurs while an action is marked active. -/
theorem keep_alive_tick_spec : ∀ (now last_cmd_time : ℚ) (is_action_active : Bool),
    ((keep_alive_tick now last_cmd_time is_action_active).1 = some keepAliveNoOp ↔
      (is_action_active = false ∧ now - last_cmd_time > keep_alive_secs)) ∧
    ((keep_alive_tick now last_cmd_time is_action_active).1 = none ↔
      ¬(is_action_active = false ∧ now - last_cmd_time > keep_alive_secs)) ∧
    ((keep_alive_tick now last_cmd_time is_action_active).2 =
      if is_action_active = false ∧ now - last_cmd_time > keep_alive_secs then now
      else last_cmd_time) ∧
    (is_action_active = true → (keep_alive_tick now last_cmd_time is_action_active).1 = none) := by
  intro now last active
  simp only [keep_alive_tick]
  by_cases hc : active = false ∧ now - last > keep_alive_secs
  · simp only [if_pos hc]
    refine ⟨by simp [hc], by simp [hc], trivial, ?_⟩
    intro h
    rw [h] at hc
    exact absurd hc.1 (by simp)
  · simp only [if_neg hc]
    exact ⟨by simp [hc], by simp [hc], trivial, fun _ => trivial⟩

/-- Witness for `keep_alive_tick_spec`: while an action is active no
keep-alive message is sent. -/
theorem keep_alive_tick_spec_witness : (keep_alive_tick 10 0 true).1 = none :=
  (keep_alive_tick_spec 10 0 true).2.2.2 rfl

/-! ## Registry dictionary lemmas -/

theorem find?_map_replace (d : List (Str × Nat)) (k : Str) (v : Nat)
    (h : d.any (fun kv => decide (kv.1 = k)) = true) :
    (d.map (fun kv => if kv.1 = k then (k, v) else kv)).find?
      (fun kv => decide (kv.1 = k)) = some (k, v) := by
  induction d with
  | nil => simp at h
  | cons kv rest ih =>
    rw [List.map_cons]
    by_cases hk : kv.1 = k
    · rw [if_pos hk]
      rw [List.find?_cons_of_pos _ (by simp)]
    · rw [if_neg hk]
      rw [List.find?_cons_of_neg _ (by simp [hk])]
      apply ih
      rw [List.any_cons] at h
      rcases Bool.or_eq_true _ _ |>.mp h with h1 | h1
      · exact absurd (by simpa using h1) hk
      · exact h1

theorem find?_append_new (d : List (Str × Nat)) (k : Str) (v : Nat)
    (h : ¬ d.any (fun kv => decide (kv.1 = k)) = true) :
    (d ++ [(k, v)]).find? (fun kv => decide (kv.1 = k)) = some (k, v) := by
  induction d with
  | nil => simp [List.find?]
  | cons kv rest ih =>
    rw [List.cons_append]
    rw [List.any_cons] at h
    push_neg at h
    have h1 : ¬ kv.1 = k := by
      intro hk
      exact h (by simp [hk])
    rw [List.find?_cons_of_neg _ (by simp [h1])]
    apply ih
    intro h2
    exact h (by simp [h2])

theorem dictGet_dictSet_self (d : List (Str × Nat)) (k : Str) (v : Nat) :
    dictGet (dictSet d k v) k = some v := by
  rw [dictSet]
  split
  · next h =>
    rw [dictGet, find?_map_replace d k v h]
    rfl
  · next h =>
    rw [dictGet, find?_append_new d k v h]
    rfl

theorem dictGet_dictPop_self (d : List (Str × Nat)) (k : Str) :
    dictGet (dictPop d k) k = none := by
  rw [dictGet, dictPop]
  rw [Option.map_eq_none']
  rw [List.find?_eq_none]
  intro kv hkv
  have := List.of_mem_filter hkv
  simp at this
  simp [this]

theorem dictGet_dictPop_none (d : List (Str × Nat)) (k t : Str)
    (h : dictGet d k = none) :
    dictGet (dictPop d t) k = none := by
  rw [dictGet, Option.map_eq_none', List.find?_eq_none] at h ⊢
  intro kv hkv
  exact h kv (List.mem_of_mem_filter hkv)

theorem dictGet_dictSet_none (d : List (Str × Nat)) (k t : Str) (v : Nat)
    (h : dictGet d k = none) (hne : k ≠ t) :
    dictGet (dictSet d t v) k = none := by
  rw [dictGet, Option.map_eq_none', List.find?_eq_none] at h ⊢
  rw [dictSet]
  split
  · intro kv hkv
    rcases List.mem_map.mp hkv with ⟨orig, horig, heq⟩
    by_cases ho : orig.1 = t
    · rw [if_pos ho] at heq
      subst heq
      simp [Ne.symm hne]
    · rw [if_neg ho] at heq
      subst heq
      exact h orig horig
  · intro kv hkv
    rcases List.mem_append.mp hkv with h1 | h1
    · exact h kv h1
    · simp at h1
      subst h1
      simp [Ne.symm hne]

theorem set_action_handle_done_of_get_some (handles : List (Str × Nat)) (t : Str) (c : Nat)
    (h : dictGet handles t = some c) :
    set_action_handle_done handles t =
      if c + 1 > 1 then (dictPop handles t, some t)
      else (dictSet handles t (c + 1), none) := by
  rw [set_action_handle_done, h]

theorem set_action_handle_done_of_get_none (handles : List (Str × Nat)) (t : Str)
    (h : dictGet handles t = none) :
    set_action_handle_done handles t = (handles, none) := by
  rw [set_action_handle_done, h]

/-! ## C1: the duplicate-trigger registry protocol -/

/-- C1: starting from registration at dispatch, the first matching trigger
keeps the registry entry with its occurrence count incremented to 1 and fires
nothing (the handle stays pending); the second matching trigger removes the
entry and fires the handle's completion; a third (now unknown) trigger, and
in general any trigger whose id is not in the registry, changes no state and
fires nothing. -/
theorem trigger_lifecycle_spec : ∀ (handles : List (Str × Nat)) (id : Str),
    (set_action_handle_done (add_action_handle handles id) id
        = (dictSet (add_action_handle handles id) id 1, none) ∧
      dictGet (dictSet (add_action_handle handles id) id 1) id = some 1) ∧
    (set_action_handle_done (dictSet (add_action_handle handles id) id 1) id
        = (dictPop (dictSet (add_action_handle handles id) id 1) id, some id) ∧
      dictGet (dictPop (dictSet (add_action_handle handles id) id 1) id) id = none) ∧
    (∀ (d : List (Str × Nat)) (id2 : Str), dictGet d id2 = none →
      set_action_handle_done d id2 = (d, none)) := by
  intro handles id
  have h0 : dictGet (add_action_handle handles id) id = some 0 :=
    dictGet_dictSet_self handles id 0
  have h1 : dictGet (dictSet (add_action_handle handles id) id 1) id = some 1 :=
    dictGet_dictSet_self _ id 1
  refine ⟨⟨?_, h1⟩, ⟨?_, dictGet_dictPop_self _ id⟩, ?_⟩
  · rw [set_action_handle_done, h0]
    norm_num
  · rw [set_action_handle_done, h1]
    norm_num
  · intro d id2 h
    rw [set_action_handle_done, h]

/-- Witness for `trigger_lifecycle_spec`: concrete run from an empty registry,
including the unknown-id clause at a never-dispatched id. -/
theorem trigger_lifecycle_spec_witness :
    set_action_handle_done [] (strL ("cb.zzz")) = ([], none) :=
  (trigger_lifecycle_spec [] (strL ("cb.x"))).2.2 [] (strL ("cb.zzz")) rfl

/-! ## C4: dispatcher ordering directives -/

/-- C4 counterexample: `Robot.say` dispatches a trigger-observed command but
does not append the padding unit and the wait-for-motors-and-speech directive:
its fragment differs from the claimed shape, and the full framed message it
sends contains no `<PA>` directive at all. -/
theorem say_ordering_counterexample :
    say_fragment (strL ("hi")) (strL ("cb.x")) ≠
      strL ("hi") ++ strL (" ") ++ wait_for_motors_and_speaking_build ++
        callback_end_build (strL ("cb.x")) ∧
    hasInfix ((say_sent (strL ("hi")) (strL ("cb.x"))).getD []) (strL ("<PA>")) = false := by
  exact ⟨by decide, by decide⟩

/-- C4 amended: for `animate` and `do` the dispatcher appends, after the
externally supplied command text, the padding unit `" "`, then the
wait-until-motors-and-speech-finish directive `<PA>`, then the
trigger-request directive `<TE=id>` carrying the handle's id (and the
trigger directive is the final suffix of the fragment); `say`, by contrast,
appends only the trigger-request directive. -/
theorem dispatch_ordering_spec : ∀ (builder_output handle_id : Str),
    animate_fragment builder_output handle_id =
      builder_output ++ strL (" ") ++ wait_for_motors_and_speaking_build ++
        callback_end_build handle_id ∧
    do_fragment builder_output handle_id = animate_fragment builder_output handle_id ∧
    wait_for_motors_and_speaking_build = strL ("<PA>") ∧
    callback_end_build handle_id = strL ("<TE=") ++ handle_id ++ strL (">") ∧
    (∃ front, animate_fragment builder_output handle_id =
      front ++ callback_end_build handle_id) ∧
    say_fragment builder_output handle_id = builder_output ++ callback_end_build handle_id := by
  intro b id
  refine ⟨rfl, rfl, rfl, ?_, ?_, rfl⟩
  · rw [callback_end_build, CallbackType_end_value]
    simp [strL]
  · exact ⟨b ++ strL (" ") ++ wait_for_motors_and_speaking_build, by
      rw [animate_fragment]⟩

/-! ## C3: ActionHandle.done -/

/-- Repeated delivery of triggers to `Robot._set_action_handle_done`,
returning the final registry and the ids fired, in firing order. -/
def runTriggers (handles : List (Str × Nat)) : List Str → List (Str × Nat) × List Str
  | [] => (handles, [])
  | t :: ts =>
    let r := set_action_handle_done handles t
    let rest := runTriggers r.1 ts
    (rest.1, r.2.toList ++ rest.2)

theorem set_action_handle_done_preserves_none (handles : List (Str × Nat)) (k t : Str)
    (h : dictGet handles k = none) :
    dictGet (set_action_handle_done handles t).1 k = none := by
  cases hget : dictGet handles t with
  | none => rw [set_action_handle_done_of_get_none handles t hget]; exact h
  | some c =>
    have hne : k ≠ t := by
      rintro rfl
      rw [h] at hget
      cases hget
    rw [set_action_handle_done_of_get_some handles t c hget]
    by_cases hc : c + 1 > 1
    · rw [if_pos hc]
      exact dictGet_dictPop_none handles k t h
    · rw [if_neg hc]
      exact dictGet_dictSet_none handles k t (c + 1) h hne

theorem runTriggers_fired_none (ts : List Str) (handles : List (Str × Nat)) (k : Str)
    (h : dictGet handles k = none) :
    ((runTriggers handles ts).2.count k) = 0 := by
  induction ts generalizing handles with
  | nil => simp [runTriggers]
  | cons t ts ih =>
    rw [runTriggers]
    rw [List.count_append]
    have hrest := ih (set_action_handle_done handles t).1
      (set_action_handle_done_preserves_none handles k t h)
    rw [hrest]
    cases hget : dictGet handles t with
    | none =>
      rw [set_action_handle_done_of_get_none handles t hget]
      simp
    | some c =>
      have hne : k ≠ t := by
        rintro rfl
        rw [h] at hget
        cases hget
      rw [set_action_handle_done_of_get_some handles t c hget]
      by_cases hc : c + 1 > 1
      · rw [if_pos hc]
        have hzero : List.count k [t] = 0 := by
          rw [List.count_eq_zero]
          simp [hne]
        show List.count k [t] + 0 = 0
        omega
      · rw [if_neg hc]
        simp

theorem runTriggers_fired_at_most_once (ts : List Str) (handles : List (Str × Nat)) (k : Str) :
    ((runTriggers handles ts).2.count k) ≤ 1 := by
  induction ts generalizing handles with
  | nil => simp [runTriggers]
  | cons t ts ih =>
    rw [runTriggers, List.count_append]
    cases hget : dictGet handles t with
    | none =>
      rw [set_action_handle_done_of_get_none handles t hget]
      simpa using ih _
    | some c =>
      rw [set_action_handle_done_of_get_some handles t c hget]
      by_cases hc : c + 1 > 1
      · rw [if_pos hc]
        show List.count k [t] + List.count k (runTriggers (dictPop handles t) ts).2 ≤ 1
        by_cases hk : k = t
        · subst hk
          rw [runTriggers_fired_none ts _ k (dictGet_dictPop_self handles k)]
          simp [List.count_cons]
        · have hzero : List.count k [t] = 0 := by
            rw [List.count_eq_zero]
            simp [hk]
          have := ih (dictPop handles t)
          omega
      · rw [if_neg hc]
        show List.count k ([] : List Str) + List.count k (runTriggers (dictSet handles t (c + 1)) ts).2 ≤ 1
        simpa using ih _

/-- C3 counterexample: `ActionHandle.done` has no reentrancy guard, so
invoking it twice on a handle with one registered callback runs that callback
twice — the claim that each callback runs exactly once however many times
`done()` is invoked is false. -/
theorem done_not_idempotent_counterexample :
    (ActionHandle_done 1 (ActionHandle_done 1 freshHandle)).callbackLog = [0, 0] ∧
    (ActionHandle_done 1 (ActionHandle_done 1 freshHandle)).callbackLog.count 0 = 2 := by
  exact ⟨rfl, rfl⟩

/-- C3 amended: a single invocation of `done()` sets the event (so `wait()`
unblocks) and invokes every registered callback exactly once, in registration
order; `done()` itself is unguarded against repeated invocation, but trigger
resolution through the registry fires any given handle's `done()` at most
once, however many matching triggers arrive. -/
theorem done_observable_spec : ∀ (n : Nat),
    (ActionHandle_done n freshHandle).eventSet = true ∧
    (ActionHandle_done n freshHandle).callbackLog = List.range n ∧
    (∀ i, i < n → (ActionHandle_done n freshHandle).callbackLog.count i = 1) ∧
    (∀ (handles : List (Str × Nat)) (ts : List Str) (id : Str),
      ((runTriggers handles ts).2.count id) ≤ 1) := by
  intro n
  refine ⟨rfl, by simp [ActionHandle_done, freshHandle], ?_, ?_⟩
  · intro i hi
    simp [ActionHandle_done, freshHandle]
    rw [List.count_eq_one_of_mem]
    · exact List.nodup_range n
    · simpa using hi
  · intro handles ts id
    exact runTriggers_fired_at_most_once ts handles id

/-- Witness for `done_observable_spec` at one callback and a concrete trigger
run: the callback with index 0 runs exactly once. -/
theorem done_observable_spec_witness :
    (ActionHandle_done 1 freshHandle).callbackLog.count 0 = 1 :=
  (done_observable_spec 1).2.2.1 0 (by omega)

/-! ## pyReplace lemmas -/

theorem pyReplaceAux_irrel (pat repl : Str) (f1 f2 : Nat) (s : Str)
    (h1 : s.length ≤ f1) (h2 : s.length ≤ f2) :
    pyReplaceAux pat repl f1 s = pyReplaceAux pat repl f2 s := by
  induction f1 generalizing s f2 with
  | zero =>
    have : s = [] := List.length_eq_zero.mp (by omega)
    subst this
    cases f2 with
    | zero => rfl
    | succ f2 => rfl
  | succ f1 ih =>
    cases s with
    | nil =>
      cases f2 with
      | zero => rfl
      | succ f2 => rfl
    | cons c rest =>
      cases f2 with
      | zero => simp at h2
      | succ f2 =>
        rw [pyReplaceAux, pyReplaceAux]
        simp only [List.length_cons] at h1 h2
        by_cases hp : pat.isPrefixOf (c :: rest) && !pat.isEmpty
        · rw [if_pos hp, if_pos hp]
          rw [ih f2 (rest.drop (pat.length - 1))
            (by simp only [List.length_drop]; omega)
            (by simp only [List.length_drop]; omega)]
        · rw [if_neg hp, if_neg hp]
          rw [ih f2 rest (by omega) (by omega)]

theorem pyReplace_head (pat repl t : Str) (hne : pat ≠ []) :
    pyReplace pat repl (pat ++ t) = repl ++ pyReplaceAux pat repl (pat.length + t.length - 1) t := by
  cases pat with
  | nil => exact absurd rfl hne
  | cons p0 prest =>
    rw [pyReplace]
    simp only [List.length_append, List.length_cons, List.cons_append]
    rw [pyReplaceAux]
    rw [if_pos]
    · congr 1
      · have hdrop : (prest ++ t).drop ((p0 :: prest).length - 1) = t := by
          simp only [List.length_cons, Nat.add_sub_cancel]
          exact List.drop_left prest t
        rw [hdrop]
        congr 1
        omega
    · simp only [Bool.and_eq_true]
      constructor
      · rw [List.isPrefixOf_iff_prefix]
        exact ⟨t, by simp⟩
      · simp

theorem pyReplace_of_prefix_free (pat repl t : Str)
    (h : ∀ (s' : Str), s' ≠ [] → (∃ pre, pre ++ s' = t) → pat.isPrefixOf s' = false) :
    ∀ fuel, pyReplaceAux pat repl fuel t = t := by
  induction t with
  | nil =>
    intro fuel
    cases fuel with
    | zero => rfl
    | succ f => rfl
  | cons c rest ih =>
    intro fuel
    cases fuel with
    | zero => rfl
    | succ f =>
      rw [pyReplaceAux]
      rw [if_neg]
      · rw [ih (fun s' hne ⟨pre, hpre⟩ => h s' hne ⟨c :: pre, by rw [← hpre]; rfl⟩) f]
      · simp only [Bool.and_eq_true, not_and]
        intro hp
        rw [h (c :: rest) (by simp) ⟨[], rfl⟩] at hp
        cases hp

theorem pyReplace_strip_voltage (t : Str) (hd : ∀ c ∈ t, isDigitC c = true) :
    pyReplace (strL ("voltage.")) [] (strL ("voltage.") ++ t) = t := by
  rw [pyReplace_head _ _ _ (by simp [strL])]
  rw [List.nil_append]
  apply pyReplace_of_prefix_free
  intro s' hne ⟨pre, hpre⟩
  cases s' with
  | nil => exact absurd rfl hne
  | cons c rest =>
    have hc : isDigitC c = true := by
      apply hd
      rw [← hpre]
      simp
    have hcv : ¬ ('v' == c) = true := by
      simp only [beq_iff_eq]
      rintro rfl
      revert hc
      decide
    show List.isPrefixOf ('v' :: strL ("oltage.")) (c :: rest) = false
    rw [List.isPrefixOf]
    simp [hcv]

theorem pyReplace_filter_char (c : Char) (s : Str) :
    pyReplace [c] [] s = s.filter (fun x => decide (x ≠ c)) := by
  induction s with
  | nil => rfl
  | cons x rest ih =>
    show pyReplaceAux [c] [] (rest.length + 1) (x :: rest) = _
    rw [pyReplaceAux]
    by_cases hx : c = x
    · subst hx
      rw [if_pos (by simp [List.isPrefixOf])]
      rw [List.nil_append]
      have hdrop : rest.drop ([c].length - 1) = rest := by simp
      rw [hdrop]
      rw [show pyReplaceAux [c] [] rest.length rest = pyReplace [c] [] rest from rfl, ih]
      rw [List.filter_cons_of_neg (by simp)]
    · rw [if_neg (by simp [List.isPrefixOf]; exact hx)]
      rw [show pyReplaceAux [c] [] rest.length rest = pyReplace [c] [] rest from rfl, ih]
      rw [List.filter_cons_of_pos (by simp [Ne.symm hx])]

/-! ## C10: generated correlation ids and trigger routing -/

theorem length_filter_ne (c : Char) (s : Str) :
    (s.filter (fun x => decide (x ≠ c))).length = s.length - s.count c := by
  induction s with
  | nil => rfl
  | cons x rest ih =>
    by_cases hx : x = c
    · subst hx
      rw [List.filter_cons_of_neg (by simp)]
      rw [List.count_cons_self, ih]
      have := List.count_le_length x rest
      simp only [List.length_cons]
      omega
    · rw [List.filter_cons_of_pos (by simp [hx])]
      rw [List.count_cons_of_ne (Ne.symm hx) rest]
      simp only [List.length_cons]
      have := List.count_le_length c rest
      omega

theorem isPrefixOf_append_self (l t : Str) : l.isPrefixOf (l ++ t) = true := by
  rw [List.isPrefixOf_iff_prefix]
  exact ⟨t, rfl⟩

theorem voltage_not_prefix_of_cb (x : Str) :
    (strL ("voltage.")).isPrefixOf (strL ("cb.") ++ x) = false := by
  by_contra hcon
  rw [Bool.not_eq_false, List.isPrefixOf_iff_prefix] at hcon
  rcases hcon with ⟨t, ht⟩
  have hv : strL ("voltage.") = 'v' :: strL ("oltage.") := rfl
  have hcb : strL ("cb.") = 'c' :: strL ("b.") := rfl
  rw [hv, hcb, List.cons_append, List.cons_append] at ht
  injection ht with h1 h2
  exact absurd h1 (by decide)

/-- The state transformation of the action-correlation (`cb.`) branch of
`_update_state`: apply `_set_action_handle_done` and record any fired id. -/
def applyTriggerCb (st : RState) (t : Str) : RState :=
  { st with handles := (set_action_handle_done st.handles t).1, fired := st.fired ++ (set_action_handle_done st.handles t).2.toList }

/-- The state transformation of the voltage-telemetry branch of
`_update_state`. -/
def applyVoltage (st : RState) (q : ℚ) : RState :=
  { st with voltage := some (q / 10) }

/-- The reduction of `Robot._update_state` on a pure trigger notification
`{"trigger": t}`: no device key, so only the trigger branches run. -/
theorem update_state_trigger_str (st : RState) (t : Str) :
    update_state st (Json.obj [(strL ("trigger"), Json.str t)]) =
      (if (strL ("voltage.")).isPrefixOf t then
        (match pyFloat (pyReplace (strL ("voltage.")) [] t) with
         | none => (st, some PyErr.valueError)
         | some q => (applyVoltage st q, none))
      else if (strL ("cb.")).isPrefixOf t then (applyTriggerCb st t, none)
      else (st, none)) := rfl

/-- C10: a correlation id generated from a uuid string (36 characters
containing 4 hyphens) is 25 characters long, starts with `"cb."` and not
with `"voltage."`, and an inbound trigger carrying it is routed by
`_update_state` to the action-correlation branch (`_set_action_handle_done`),
leaving version and voltage untouched. -/
theorem generate_id_spec : ∀ (u : Str), u.length = 36 → List.count '-' u = 4 →
    (generate_id u).length = 25 ∧
    (strL ("cb.")).isPrefixOf (generate_id u) = true ∧
    (strL ("voltage.")).isPrefixOf (generate_id u) = false ∧
    (∀ st : RState,
      update_state st (Json.obj [(strL ("trigger"), Json.str (generate_id u))]) =
        (applyTriggerCb st (generate_id u), none)) := by
  intro u hlen hcount
  have hgen : generate_id u = strL ("cb.") ++
      (pyReplace (strL ("-")) [] u).take ((pyReplace (strL ("-")) [] u).length - 10) := rfl
  have hrep : pyReplace (strL ("-")) [] u = u.filter (fun x => decide (x ≠ '-')) := by
    have : strL ("-") = ['-'] := rfl
    rw [this, pyReplace_filter_char]
  have hexlen : (pyReplace (strL ("-")) [] u).length = 32 := by
    rw [hrep, length_filter_ne, hlen, hcount]
  have hprefix : (strL ("cb.")).isPrefixOf (generate_id u) = true := by
    rw [hgen]
    exact isPrefixOf_append_self _ _
  have hnotvolt : (strL ("voltage.")).isPrefixOf (generate_id u) = false := by
    rw [hgen]
    exact voltage_not_prefix_of_cb _
  refine ⟨?_, hprefix, hnotvolt, ?_⟩
  · rw [hgen]
    rw [List.length_append, List.length_take, hexlen]
    rfl
  · intro st
    rw [update_state_trigger_str]
    rw [if_neg (by rw [hnotvolt]; exact Bool.false_ne_true), if_pos hprefix]

/-- Witness for `generate_id_spec` at a concrete uuid string. -/
theorem generate_id_spec_witness :
    (generate_id (strL ("12345678-1234-1234-1234-123456789012"))).length = 25 :=
  (generate_id_spec (strL ("12345678-1234-1234-1234-123456789012"))
    (by decide) (by decide)).1

/-! ## C8: telemetry (firmware version, voltage) -/

/-- The inbound notification `{"device": {"version": v}}`. -/
def deviceVersionMsg (v : Str) : Json :=
  Json.obj [(strL ("device"), Json.obj [(strL ("version"), Json.str v)])]

/-- Reduction of `_update_state` on a `device.version` notification: the
stored version is overwritten exactly when the `self.version is ''` guard
holds. -/
theorem update_state_device_version (st : RState) (v : Str) :
    update_state st (deviceVersionMsg v) =
      (if version_is_empty_str st.version then { st with version := Json.str v } else st,
        none) := by
  have e0 : update_state st (deviceVersionMsg v) =
      (match (if (true && version_is_empty_str st.version) = true
              then (Except.ok { st with version := Json.str v } : Except PyErr RState)
              else Except.ok st) with
       | Except.error e => (st, some e)
       | Except.ok st1 => (st1, none)) := rfl
  rw [e0]
  cases h : version_is_empty_str st.version with
  | true => simp [h]
  | false => simp [h]

/-- Repeated `device.version` notifications applied to the robot state. -/
def processVersions (st : RState) (vs : List Str) : RState :=
  vs.foldl (fun s v => (update_state s (deviceVersionMsg v)).1) st

/-- The first non-empty string of a list (or `""` when there is none). -/
def firstNonEmpty (vs : List Str) : Str := (vs.find? (fun v => !v.isEmpty)).getD []

theorem processVersions_frozen (vs : List Str) (st : RState)
    (h : version_is_empty_str st.version = false) : processVersions st vs = st := by
  induction vs generalizing st with
  | nil => rfl
  | cons v vs ih =>
    show processVersions (update_state st (deviceVersionMsg v)).1 vs = st
    rw [update_state_device_version st v]
    rw [if_neg (by rw [h]; exact Bool.false_ne_true)]
    exact ih st h

theorem processVersions_first_nonempty (vs : List Str) (st : RState)
    (h : st.version = Json.str []) :
    (processVersions st vs).version = Json.str (firstNonEmpty vs) := by
  induction vs generalizing st with
  | nil =>
    show st.version = _
    rw [h]
    rfl
  | cons v vs ih =>
    show (processVersions (update_state st (deviceVersionMsg v)).1 vs).version = _
    rw [update_state_device_version st v]
    have hemp : version_is_empty_str st.version = true := by rw [h]; rfl
    rw [if_pos hemp]
    by_cases hv : v = []
    · subst hv
      rw [ih { st with version := Json.str [] } rfl]
      rfl
    · rw [processVersions_frozen vs _ (by
        show v.isEmpty = false
        cases v with
        | nil => exact absurd rfl hv
        | cons c r => rfl)]
      show Json.str v = Json.str (firstNonEmpty (v :: vs))
      congr 1
      rw [firstNonEmpty, List.find?_cons_of_pos _ (by
        cases v with
        | nil => exact absurd rfl hv
        | cons c r => rfl)]
      rfl

theorem pyFloatBody_digits (s : Str) (hne : s ≠ []) (hall : s.all isDigitC = true) :
    pyFloatBody s = some ((digitsToNat s : Nat) : ℚ) := by
  have htake : s.takeWhile isDigitC = s :=
    List.takeWhile_eq_self_iff.mpr (fun x hx => List.all_eq_true.mp hall x hx)
  have hdrop : s.dropWhile isDigitC = [] :=
    List.dropWhile_eq_nil_iff.mpr (fun x hx => List.all_eq_true.mp hall x hx)
  simp only [pyFloatBody, htake, hdrop]
  rw [if_neg (by simpa using hne)]

theorem pyFloat_natDigits (n : Nat) : pyFloat (natDigits n) = some ((n : Nat) : ℚ) := by
  obtain ⟨c, r, hcr⟩ : ∃ c r, natDigits n = c :: r := by
    cases h : natDigits n with
    | nil => exact absurd h (natDigits_ne_nil n)
    | cons c r => exact ⟨c, r, rfl⟩
  have hall : (natDigits n).all isDigitC = true := natDigits_all_digits n
  have hc : isDigitC c = true := by
    apply List.all_eq_true.mp hall
    rw [hcr]
    simp
  have htrim : trimWs (natDigits n) = natDigits n :=
    trimWs_eq_self _ (fun x hx =>
      isSpaceC_eq_false_of_isDigitC x (List.all_eq_true.mp hall x hx))
  rw [pyFloat, htrim, hcr, pyFloatCore]
  rw [if_neg (isDigitC_ne_minus c hc), if_neg (isDigitC_ne_plus c hc)]
  rw [pyFloatBody_digits (c :: r) (by simp) (by rw [← hcr]; exact hall)]
  rw [← hcr, digitsToNat_natDigits]

/-- The inbound voltage telemetry trigger `{"trigger": "voltage.<n>"}`. -/
def voltMsg (n : Nat) : Json :=
  Json.obj [(strL ("trigger"), Json.str (strL ("voltage.") ++ natDigits n))]

theorem update_state_voltMsg (st : RState) (n : Nat) :
    update_state st (voltMsg n) = (applyVoltage st ((n : Nat) : ℚ), none) := by
  rw [voltMsg, update_state_trigger_str]
  rw [if_pos (isPrefixOf_append_self _ _)]
  rw [pyReplace_strip_voltage _ (fun c hc => List.all_eq_true.mp (natDigits_all_digits n) c hc)]
  rw [pyFloat_natDigits]

/-- C8: the firmware version is observably set at most once — over any
sequence of `device.version` notifications starting from the initial empty
version, the stored version ends up being the first non-empty value (or stays
empty), and any notification arriving once the stored version is non-empty
leaves the whole state unchanged; a voltage telemetry trigger
`voltage.<n>` overwrites the voltage field with `n / 10`, and of two such
triggers the latest wins. -/
theorem telemetry_spec :
    (∀ (st : RState) (vs : List Str), st.version = Json.str [] →
      (processVersions st vs).version = Json.str (firstNonEmpty vs)) ∧
    (∀ (st : RState) (v : Str), version_is_empty_str st.version = false →
      update_state st (deviceVersionMsg v) = (st, none)) ∧
    (∀ (st : RState) (n : Nat),
      update_state st (voltMsg n) = (applyVoltage st ((n : Nat) : ℚ), none) ∧
        (applyVoltage st ((n : Nat) : ℚ)).voltage = some (((n : Nat) : ℚ) / 10)) ∧
    (∀ (st : RState) (n m : Nat),
      ((update_state (update_state st (voltMsg n)).1 (voltMsg m)).1).voltage =
        some (((m : Nat) : ℚ) / 10)) := by
  refine ⟨fun st vs h => processVersions_first_nonempty vs st h, ?_, ?_, ?_⟩
  · intro st v h
    rw [update_state_device_version st v]
    rw [if_neg (by rw [h]; exact Bool.false_ne_true)]
  · intro st n
    exact ⟨update_state_voltMsg st n, rfl⟩
  · intro st n m
    rw [update_state_voltMsg st n, update_state_voltMsg _ m]
    rfl

/-- Witness for `telemetry_spec`: a `voltage.47` trigger sets the voltage to
4.7, and with notifications `["", "1.2", "3.4"]` the stored firmware version
is the first non-empty value `"1.2"`. -/
theorem telemetry_spec_witness :
    (processVersions initRState [strL (""), strL ("1.2"), strL ("3.4")]).version =
      Json.str (firstNonEmpty [strL (""), strL ("1.2"), strL ("3.4")]) ∧
    update_state initRState (voltMsg 47) =
      (applyVoltage initRState ((47 : Nat) : ℚ), none) :=
  ⟨telemetry_spec.1 initRState [strL (""), strL ("1.2"), strL ("3.4")] rfl,
    (telemetry_spec.2.2.1 initRState 47).1⟩

/-! ## Decoder step and loop lemmas -/

theorem findCharIdx_append_of_none (c : Char) (xs l : Str)
    (h : ∀ x ∈ xs, (x = c) = False) :
    findCharIdx c (xs ++ l) = (findCharIdx c l).map (· + xs.length) := by
  induction xs with
  | nil =>
    simp only [List.nil_append, List.length_nil]
    cases findCharIdx c l <;> simp
  | cons x rest ih =>
    rw [List.cons_append, findCharIdx]
    rw [if_neg (by simpa using h x (by simp))]
    rw [ih (fun y hy => h y (by simp [hy]))]
    cases findCharIdx c l
    · simp
    · simp
      omega

theorem findCharIdx_cons_self (c : Char) (l : Str) : findCharIdx c (c :: l) = some 0 := by
  rw [findCharIdx, if_pos rfl]

theorem isDigitC_ne_lbrace (c : Char) (h : isDigitC c = true) : (c = lbrace) = False := by
  simp only [eq_iff_iff, iff_false]
  rintro rfl
  revert h
  decide

theorem pySlice_natCast (msg : Str) (a b : Nat) :
    pySlice msg (a : Int) (b : Int) = (msg.take (min b msg.length)).drop (min a msg.length) := by
  rw [pySlice]
  have hca : clampIndex msg.length (a : Int) = min a msg.length := by
    rw [clampIndex, if_neg (by omega)]
    simp
  have hcb : clampIndex msg.length (b : Int) = min b msg.length := by
    rw [clampIndex, if_neg (by omega)]
    simp
  rw [hca, hcb]

theorem pySlice_drop (msg : Str) (p : Nat) (hp : p ≤ msg.length) :
    pySlice msg (p : Int) (msg.length : Int) = msg.drop p := by
  rw [pySlice_natCast]
  rw [Nat.min_self, List.take_length, Nat.min_eq_left hp]

theorem pySlice_window (msg : Str) (a b : Nat) (hab : a ≤ b) (hb : b ≤ msg.length) :
    pySlice msg (a : Int) (b : Int) = (msg.drop a).take (b - a) := by
  rw [pySlice_natCast]
  rw [Nat.min_eq_left hb, Nat.min_eq_left (by omega)]
  exact List.drop_take b a msg

theorem decodeStep_good (msg : Str) (p : Nat) (body : Str) (j : Json) (rest : Str)
    (hdrop : msg.drop p = envelopeOf body ++ rest)
    (hp : p ≤ msg.length)
    (hhead : body.head? = some lbrace)
    (hbound : body.length ≤ 999999)
    (hparse : json_loads body = some j) :
    decodeStep msg (p : Int) = Except.ok (j, ((p + 6 + body.length : Nat) : Int)) := by
  have hdigits6 : (zfill 6 (natDigits body.length)).length = 6 :=
    zfill_length 6 _ (natDigits_length_le 5 _ (by norm_num; omega))
  have hdigitsall : (zfill 6 (natDigits body.length)).all isDigitC = true :=
    zfill_all_digits _ _ (natDigits_all_digits _)
  obtain ⟨b0, brest, hbody⟩ : ∃ b0 brest, body = b0 :: brest := by
    cases body with
    | nil => cases hhead
    | cons b0 brest => exact ⟨b0, brest, rfl⟩
  have hb0 : b0 = lbrace := by
    rw [hbody] at hhead
    simpa using hhead
  have hlen : msg.length = p + (envelopeOf body ++ rest).length := by
    have := congrArg List.length hdrop
    rw [List.length_drop] at this
    omega
  have henvlen : (envelopeOf body).length = 6 + body.length := by
    rw [envelopeOf, List.length_append, hdigits6]
  have hfind : pyFind (pySlice msg (p : Int) (msg.length : Int)) lbrace = (6 : Int) := by
    rw [pySlice_drop msg p hp, hdrop, envelopeOf]
    generalize hD : zfill 6 (natDigits body.length) = D at hdigits6 hdigitsall
    rw [hbody, List.append_assoc, List.cons_append]
    rw [pyFind]
    rw [findCharIdx_append_of_none lbrace D _
      (fun x hx => isDigitC_ne_lbrace x (List.all_eq_true.mp hdigitsall x hx))]
    rw [hb0, findCharIdx_cons_self]
    rw [Option.map_some']
    simp [hdigits6]
  have hcast6 : (p : Int) + 6 = ((p + 6 : Nat) : Int) := by push_cast; ring
  have hcastL : ((p + 6 : Nat) : Int) + ((body.length : Nat) : Int) =
      ((p + 6 + body.length : Nat) : Int) := by push_cast; ring
  have hslice1 : pySlice msg (p : Int) ((p + 6 : Nat) : Int) = zfill 6 (natDigits body.length) := by
    rw [pySlice_window msg p (p + 6) (by omega) (by
      rw [hlen, List.length_append, henvlen]
      omega)]
    rw [hdrop, envelopeOf, List.append_assoc, Nat.add_sub_cancel_left p 6]
    rw [List.take_append_of_le_length (by rw [hdigits6])]
    exact List.take_of_length_le (le_of_eq hdigits6)
  have hslice2 : pySlice msg ((p + 6 : Nat) : Int) ((p + 6 + body.length : Nat) : Int) = body := by
    rw [pySlice_window msg (p + 6) (p + 6 + body.length) (by omega) (by
      rw [hlen, List.length_append, henvlen]
      omega)]
    have hdrop2 : msg.drop (p + 6) = body ++ rest := by
      have hdd : msg.drop (p + 6) = (msg.drop p).drop 6 := by
        rw [List.drop_drop]
      rw [hdd, hdrop, envelopeOf, List.append_assoc]
      rw [List.drop_append_of_le_length (by rw [hdigits6])]
      rw [List.drop_of_length_le (le_of_eq hdigits6), List.nil_append]
    rw [hdrop2, Nat.add_sub_cancel_left]
    rw [List.take_append_of_le_length (le_refl _)]
    simp
  simp only [decodeStep, hfind, hcast6, hslice1,
    pyInt_zfill_natDigits body.length hbound, hcastL, hslice2, hparse]

theorem envelopeOf_length_pos (b : Str) : 0 < (envelopeOf b).length := by
  rw [envelopeOf, List.length_append]
  have hne := natDigits_ne_nil b.length
  have hlen : 0 < (natDigits b.length).length := List.length_pos.mpr hne
  rw [zfill, List.length_append]
  omega

theorem decodeLoop_chain (items : List (Str × Json)) (tail : Str) (st st' : RState)
    (msg : Str) (p : Nat) (acc : List Json) (fuel : Nat)
    (hdrop : msg.drop p = concatEnvelopes items ++ tail)
    (hp : p ≤ msg.length)
    (hok : envelopesOk st items st') :
    decodeLoop msg (fuel + items.length) (p : Int) st acc =
      decodeLoop msg fuel ((p + (concatEnvelopes items).length : Nat) : Int) st'
        ((items.map Prod.snd).reverse ++ acc) := by
  induction items generalizing st p acc with
  | nil =>
    simp only [envelopesOk] at hok
    subst hok
    simp [concatEnvelopes]
  | cons bj rest ih =>
    obtain ⟨b, j⟩ := bj
    obtain ⟨hhead, hbound, hparse, stm, hupd, hrest⟩ := hok
    have hconcat : concatEnvelopes ((b, j) :: rest) = envelopeOf b ++ concatEnvelopes rest := by
      simp [concatEnvelopes]
    rw [hconcat] at hdrop
    rw [List.append_assoc] at hdrop
    have hplen : msg.length = p + (envelopeOf b ++ (concatEnvelopes rest ++ tail)).length := by
      have hcl := congrArg List.length hdrop
      rw [List.length_drop] at hcl
      omega
    have hlt : p < msg.length := by
      have hpos := envelopeOf_length_pos b
      rw [hplen, List.length_append]
      omega
    have hstep := decodeStep_good msg p b j (concatEnvelopes rest ++ tail) hdrop hp hhead hbound hparse
    have henv : (envelopeOf b).length = 6 + b.length := by
      rw [envelopeOf, List.length_append,
        zfill_length 6 _ (natDigits_length_le 5 _ (by norm_num; omega))]
    show decodeLoop msg (fuel + rest.length + 1) (p : Int) st acc = _
    rw [decodeLoop]
    rw [if_pos ((by exact_mod_cast hlt : (p : Int) < (msg.length : Int)))]
    simp only [hstep, hupd]
    have hcast : ((p + 6 + b.length : Nat) : Int) = ((p + (envelopeOf b).length : Nat) : Int) := by
      rw [henv]
      push_cast
      ring
    rw [hcast]
    have hdrop' : msg.drop (p + (envelopeOf b).length) = concatEnvelopes rest ++ tail := by
      rw [← List.drop_drop, hdrop]
      rw [List.drop_append_of_le_length (le_refl _)]
      rw [List.drop_of_length_le (le_refl _), List.nil_append]
    have hp' : p + (envelopeOf b).length ≤ msg.length := by
      rw [hplen, List.length_append]
      omega
    rw [ih stm (p + (envelopeOf b).length) (j :: acc) hdrop' hp' hrest]
    have h1 : p + (envelopeOf b).length + (concatEnvelopes rest).length =
        p + (concatEnvelopes ((b, j) :: rest)).length := by
      rw [hconcat, List.length_append]
      omega
    have h2 : (rest.map Prod.snd).reverse ++ (j :: acc) =
        ((((b, j) :: rest).map Prod.snd).reverse ++ acc) := by
      simp
    rw [h1, h2]

theorem concatEnvelopes_length_ge (items : List (Str × Json)) :
    items.length ≤ (concatEnvelopes items).length := by
  induction items with
  | nil => simp [concatEnvelopes]
  | cons bj rest ih =>
    have hc : concatEnvelopes (bj :: rest) = envelopeOf bj.1 ++ concatEnvelopes rest := by
      simp [concatEnvelopes]
    rw [hc, List.length_append, List.length_cons]
    have := envelopeOf_length_pos bj.1
    omega

theorem decodeLoop_at_end (msg : Str) (m : Nat) (st : RState) (acc : List Json)
    (p : Nat) (hp : ¬ ((p : Int) < (msg.length : Int))) :
    decodeLoop msg (m + 1) (p : Int) st acc = (st, acc.reverse, Outcome.ok) := by
  rw [decodeLoop, if_neg hp]

theorem data_received_cb_good (st st' : RState) (items : List (Str × Json))
    (hok : envelopesOk st items st') :
    data_received_cb st (concatEnvelopes items) = (st', items.map Prod.snd, Outcome.ok) := by
  rw [data_received_cb]
  have hcount := concatEnvelopes_length_ge items
  have hfuel : (concatEnvelopes items).length + 1 =
      ((concatEnvelopes items).length + 1 - items.length) + items.length := by omega
  rw [hfuel]
  rw [show (0 : Int) = ((0 : Nat) : Int) from rfl]
  rw [decodeLoop_chain items [] st st' (concatEnvelopes items) 0 [] _
    (by simp) (by omega) hok]
  obtain ⟨m, hm⟩ : ∃ m, (concatEnvelopes items).length + 1 - items.length = m + 1 :=
    ⟨(concatEnvelopes items).length - items.length, by omega⟩
  rw [hm]
  rw [decodeLoop_at_end _ _ _ _ _ (by
    push_cast
    omega)]
  simp

/-! ## C2: frame decoding -/

/-- The parsed object of the echo command body. -/
def echoJson : Json := Json.obj [(strL ("cmd"), Json.str (strL ("echo")))]

/-- The parsed object of the pushping command body. -/
def pushpingJson : Json := Json.obj [(strL ("cmd"), Json.str (strL ("pushping")))]

/-- The parsed object of the voltage command body. -/
def voltageJson : Json := Json.obj [(strL ("cmd"), Json.str (strL ("voltage")))]

/-- C2 counterexample: the read consisting of the two well-formed envelopes
`000022{"trigger":"voltage."}` and `000014{"cmd":"echo"}` yields only the
first parsed object, not both: processing the first object raises a (caught)
`ValueError` inside `float("")`, and the remainder of the read — including
the second, perfectly well-formed envelope — is discarded. -/
theorem frame_decoder_counterexample :
    (data_received_cb initRState
        (strL ("000022\x7b\"trigger\":\"voltage.\"\x7d000014\x7b\"cmd\":\"echo\"\x7d"))).2.1 =
      [Json.obj [(strL ("trigger"), Json.str (strL ("voltage.")))]] ∧
    (data_received_cb initRState
        (strL ("000022\x7b\"trigger\":\"voltage.\"\x7d000014\x7b\"cmd\":\"echo\"\x7d"))).2.2 =
      Outcome.caughtValueError :=
  ⟨rfl, rfl⟩

/-- C2 amended: the concrete two-envelope read decodes to exactly the two
parsed objects in order, and in general a read that is a concatenation of
well-formed envelopes (6-digit zero-padded length prefix, body starting with
`{`, body parsing as JSON) yields each body, parsed, in concatenation order,
provided the state update on each parsed object raises no exception. -/
theorem frame_decoder_spec :
    data_received_cb initRState
        (strL ("000014\x7b\"cmd\":\"echo\"\x7d000018\x7b\"cmd\":\"pushping\"\x7d")) =
      (initRState, [echoJson, pushpingJson], Outcome.ok) ∧
    (∀ (st st' : RState) (items : List (Str × Json)), envelopesOk st items st' →
      data_received_cb st (concatEnvelopes items) = (st', items.map Prod.snd, Outcome.ok)) := by
  constructor
  · rfl
  · exact fun st st' items hok => data_received_cb_good st st' items hok

/-- Witness for `frame_decoder_spec`: a single echo envelope decodes to its
parsed object. -/
theorem frame_decoder_spec_witness :
    data_received_cb initRState (concatEnvelopes [(echo_body, echoJson)]) =
      (initRState, [echoJson], Outcome.ok) :=
  frame_decoder_spec.2 initRState initRState [(echo_body, echoJson)]
    ⟨rfl, by decide, rfl, initRState, rfl, rfl⟩

/-! ## C5: error containment in the decoder -/

/-- C5 counterexample: the malformed read `"123"` (no brace at all) does not
have its error caught: the code slices out `"3"`, parses it as the JSON
number 3, and `"device" in 3` raises a `TypeError`, which the
`except ValueError` clause does not catch — the exception escapes the decoder
callback (and would kill the reader thread). -/
theorem decode_uncaught_counterexample :
    (data_received_cb initRState (strL ("123"))).2.2 = Outcome.uncaught PyErr.typeError ∧
    (data_received_cb initRState (strL ("123"))).2.1.length = 1 :=
  ⟨rfl, rfl⟩

/-- C5 amended: for a read made of well-formed, cleanly-processed envelopes
followed by a malformed tail whose decoding step raises `ValueError`, the
error is caught: the envelopes before the malformed portion are processed,
the remainder of the read is discarded, and no exception escapes; a
subsequent read of well-formed envelopes is then decoded normally.  (A
malformed read whose extracted fragment parses as a non-object JSON value
instead raises an uncaught `TypeError` — see the counterexample.) -/
theorem decode_error_containment_spec :
    (∀ (st st' : RState) (items : List (Str × Json)) (tail : Str),
      envelopesOk st items st' → tail ≠ [] →
      decodeStep (concatEnvelopes items ++ tail) (((concatEnvelopes items).length : Nat) : Int) =
        Except.error PyErr.valueError →
      data_received_cb st (concatEnvelopes items ++ tail) =
        (st', items.map Prod.snd, Outcome.caughtValueError)) ∧
    (∀ (st' st2 : RState) (items2 : List (Str × Json)),
      envelopesOk st' items2 st2 →
      data_received_cb st' (concatEnvelopes items2) = (st2, items2.map Prod.snd, Outcome.ok)) := by
  constructor
  · intro st st' items tail hok htail hstep
    rw [data_received_cb]
    have hcount := concatEnvelopes_length_ge items
    have hclen : (concatEnvelopes items ++ tail).length =
        (concatEnvelopes items).length + tail.length := List.length_append _ _
    have htlen : 0 < tail.length := List.length_pos.mpr htail
    have hfuel : (concatEnvelopes items ++ tail).length + 1 =
        ((concatEnvelopes items ++ tail).length + 1 - items.length) + items.length := by omega
    rw [hfuel]
    rw [show (0 : Int) = ((0 : Nat) : Int) from rfl]
    rw [decodeLoop_chain items tail st st' (concatEnvelopes items ++ tail) 0 [] _
      (by simp) (by omega) hok]
    obtain ⟨m, hm⟩ : ∃ m, (concatEnvelopes items ++ tail).length + 1 - items.length = m + 1 :=
      ⟨(concatEnvelopes items ++ tail).length - items.length, by omega⟩
    rw [hm]
    rw [decodeLoop]
    rw [if_pos (by
      push_cast
      omega)]
    rw [show ((0 + (concatEnvelopes items).length : Nat) : Int) =
      (((concatEnvelopes items).length : Nat) : Int) from by push_cast; omega]
    rw [hstep]
    simp
  · exact fun st' st2 items2 hok => data_received_cb_good st' st2 items2 hok

/-- Witness for `decode_error_containment_spec`: an echo envelope followed by
a truncated prefix `"000014"` processes the echo object and catches the
`ValueError` from the malformed tail. -/
theorem decode_error_containment_spec_witness :
    data_received_cb initRState (concatEnvelopes [(echo_body, echoJson)] ++ strL ("000014")) =
      (initRState, [echoJson], Outcome.caughtValueError) :=
  decode_error_containment_spec.1 initRState initRState [(echo_body, echoJson)]
    (strL ("000014")) ⟨rfl, by decide, rfl, initRState, rfl, rfl⟩ (by decide) rfl

/-! ## C9: framing and decoding round-trip -/

/-- A character that needs no escaping inside a JSON string literal. -/
def cleanChar (c : Char) : Bool :=
  decide (c ≠ quoteC) && decide (c ≠ backslashC) && decide (32 ≤ c.toNat)

/-- A fragment free of characters that require JSON string escaping. -/
def cleanFrag (s : Str) : Bool := s.all cleanChar

/-- The parsed object of `activity_cmd`'s body for a given fragment. -/
def activityJson (frag : Str) : Json :=
  Json.obj [(strL ("cmd"), Json.str (strL ("activity.recieved"))),
    (strL ("data"), Json.obj [(strL ("output"), Json.str frag)])]

theorem parseStringBody_cons_clean (c : Char) (rest : Str)
    (hq : ¬ c = quoteC) (hb : ¬ c = backslashC) (hctl : 32 ≤ c.toNat) :
    parseStringBody (c :: rest) = (parseStringBody rest).map (fun p => (c :: p.1, p.2)) := by
  rw [parseStringBody.eq_def]
  simp only []
  rw [if_neg hq, if_neg hb, if_neg (show ¬ c.toNat < 32 from by omega)]

theorem parseStringBody_clean (frag : Str) (hclean : cleanFrag frag = true) (r : Str) :
    parseStringBody (frag ++ quoteC :: r) = some (frag, r) := by
  induction frag with
  | nil =>
    rw [List.nil_append, parseStringBody.eq_def]
    simp only []
    rw [if_pos trivial]
  | cons c cs ih =>
    have hc2 : cleanChar c = true ∧ cleanFrag cs = true := by
      rw [cleanFrag, List.all_cons, Bool.and_eq_true] at hclean
      exact hclean
    obtain ⟨hq, hb, hctl⟩ : ¬ c = quoteC ∧ ¬ c = backslashC ∧ 32 ≤ c.toNat := by
      have hcc := hc2.1
      simp only [cleanChar, Bool.and_eq_true, decide_eq_true_eq] at hcc
      exact ⟨hcc.1.1, hcc.1.2, hcc.2⟩
    rw [List.cons_append, parseStringBody_cons_clean c _ hq hb hctl]
    rw [ih hc2.2]
    rfl

theorem skipWs_cons_of_neg (c : Char) (r : Str) (h : isSpaceC c = false) :
    skipWs (c :: r) = c :: r := by
  rw [skipWs.eq_def]
  simp only []
  rw [if_neg (by rw [h]; exact Bool.false_ne_true)]

theorem parseValue_str (g : Nat) (frag : Str) (hclean : cleanFrag frag = true) (r : Str) :
    parseValue (g + 1) (quoteC :: (frag ++ quoteC :: r)) = some (Json.str frag, r) := by
  rw [parseValue.eq_def]
  simp only []
  rw [skipWs_cons_of_neg quoteC _ (by decide)]
  simp only []
  rw [if_neg (by decide), if_neg (by decide), if_pos trivial]
  rw [parseStringBody_clean frag hclean r]
  rfl

theorem parseMembers_output (g : Nat) (frag : Str) (hclean : cleanFrag frag = true) (r : Str) :
    parseMembers ((g + 1) + 1)
      (quoteC :: (strL ("output") ++ quoteC :: ':' :: quoteC :: (frag ++ quoteC :: rbrace :: r))) =
      some ([(strL ("output"), Json.str frag)], r) := by
  rw [parseMembers.eq_def]
  simp only []
  rw [skipWs_cons_of_neg quoteC _ (by decide)]
  simp only []
  rw [if_pos trivial]
  rw [parseStringBody_clean (strL ("output")) (by decide) _]
  simp only []
  rw [skipWs_cons_of_neg ':' _ (by decide)]
  simp only []
  rw [if_pos trivial]
  rw [parseValue_str g frag hclean (rbrace :: r)]
  simp only []
  rw [skipWs_cons_of_neg rbrace _ (by decide)]
  simp only []
  rw [if_neg (by decide), if_pos trivial]

theorem parseValue_inner_obj (g : Nat) (frag : Str) (hclean : cleanFrag frag = true) (r : Str) :
    parseValue (((g + 1) + 1) + 1)
      (lbrace :: quoteC :: (strL ("output") ++ quoteC :: ':' :: quoteC ::
        (frag ++ quoteC :: rbrace :: r))) =
      some (Json.obj [(strL ("output"), Json.str frag)], r) := by
  rw [parseValue.eq_def]
  simp only []
  rw [skipWs_cons_of_neg lbrace _ (by decide)]
  simp only []
  rw [if_pos trivial]
  rw [skipWs_cons_of_neg quoteC _ (by decide)]
  simp only []
  rw [if_neg (by decide)]
  rw [parseMembers_output g frag hclean r]
  rfl

theorem parseMembers_data (g : Nat) (frag : Str) (hclean : cleanFrag frag = true) (r : Str) :
    parseMembers ((((g + 1) + 1) + 1) + 1)
      (quoteC :: (strL ("data") ++ quoteC :: ':' :: lbrace :: quoteC ::
        (strL ("output") ++ quoteC :: ':' :: quoteC :: (frag ++ quoteC :: rbrace :: rbrace :: r)))) =
      some ([(strL ("data"), Json.obj [(strL ("output"), Json.str frag)])], r) := by
  rw [parseMembers.eq_def]
  simp only []
  rw [skipWs_cons_of_neg quoteC _ (by decide)]
  simp only []
  rw [if_pos trivial]
  rw [parseStringBody_clean (strL ("data")) (by decide) _]
  simp only []
  rw [skipWs_cons_of_neg ':' _ (by decide)]
  simp only []
  rw [if_pos trivial]
  rw [parseValue_inner_obj g frag hclean (rbrace :: r)]
  simp only []
  rw [skipWs_cons_of_neg rbrace _ (by decide)]
  simp only []
  rw [if_neg (by decide), if_pos trivial]

theorem parseMembers_top (g : Nat) (frag : Str) (hclean : cleanFrag frag = true) (r : Str) :
    parseMembers (((((g + 1) + 1) + 1) + 1) + 1)
      (quoteC :: (strL ("cmd") ++ quoteC :: ':' :: quoteC ::
        (strL ("activity.recieved") ++ quoteC :: ',' :: quoteC ::
          (strL ("data") ++ quoteC :: ':' :: lbrace :: quoteC ::
            (strL ("output") ++ quoteC :: ':' :: quoteC ::
              (frag ++ quoteC :: rbrace :: rbrace :: r)))))) =
      some ([(strL ("cmd"), Json.str (strL ("activity.recieved"))),
        (strL ("data"), Json.obj [(strL ("output"), Json.str frag)])], r) := by
  rw [parseMembers.eq_def]
  simp only []
  rw [skipWs_cons_of_neg quoteC _ (by decide)]
  simp only []
  rw [if_pos trivial]
  rw [parseStringBody_clean (strL ("cmd")) (by decide) _]
  simp only []
  rw [skipWs_cons_of_neg ':' _ (by decide)]
  simp only []
  rw [if_pos trivial]
  rw [parseValue_str ((((g + 1) + 1) + 1)) (strL ("activity.recieved")) (by decide)]
  simp only []
  rw [skipWs_cons_of_neg ',' _ (by decide)]
  simp only []
  rw [if_pos trivial]
  rw [parseMembers_data g frag hclean r]
  rfl

theorem parseValue_activity (g : Nat) (frag : Str) (hclean : cleanFrag frag = true) :
    parseValue ((((((g + 1) + 1) + 1) + 1) + 1) + 1) (activity_body frag) =
      some (activityJson frag, []) := by
  have hshape : activity_body frag = lbrace :: quoteC :: (strL ("cmd") ++ quoteC :: ':' :: quoteC ::
      (strL ("activity.recieved") ++ quoteC :: ',' :: quoteC ::
        (strL ("data") ++ quoteC :: ':' :: lbrace :: quoteC ::
          (strL ("output") ++ quoteC :: ':' :: quoteC ::
            (frag ++ quoteC :: rbrace :: rbrace :: []))))) := rfl
  rw [hshape, parseValue.eq_def]
  simp only []
  rw [skipWs_cons_of_neg lbrace _ (by decide)]
  simp only []
  rw [if_pos trivial]
  rw [skipWs_cons_of_neg quoteC _ (by decide)]
  simp only []
  rw [if_neg (by decide)]
  rw [parseMembers_top g frag hclean []]
  rfl

theorem json_loads_activity (frag : Str) (hclean : cleanFrag frag = true) :
    json_loads (activity_body frag) = some (activityJson frag) := by
  have h45 : (strL ("\x7b\"cmd\":\"activity.recieved\",\"data\":\x7b\"output\":\"")).length = 45 := rfl
  have h3 : (strL ("\"\x7d\x7d")).length = 3 := rfl
  have hblen : (activity_body frag).length = frag.length + 48 := by
    rw [activity_body, List.length_append, List.length_append, h45, h3]
    omega
  have hfuel : (activity_body frag).length + 1 =
      (((((((frag.length + 43) + 1) + 1) + 1) + 1) + 1) + 1) := by
    rw [hblen]
  rw [json_loads, hfuel]
  rw [parseValue_activity (frag.length + 43) frag hclean]
  rfl

theorem concatEnvelopes_single (b : Str) (j : Json) :
    concatEnvelopes [(b, j)] = envelopeOf b := by
  simp [concatEnvelopes]

/-- C9: framing/decoding round-trip.  The framed outputs of `echo_cmd`,
`push_ping_cmd` and `voltage_cmd` are well-formed envelopes whose
concatenation decodes back to exactly their parsed bodies in order; for every
fragment free of JSON-escaping characters and small enough to frame,
`activity_cmd` produces the envelope of its body and that envelope decodes
back to the parsed activity object carrying the fragment verbatim; a fragment
containing a double quote breaks the round-trip, because it is spliced into
the body unescaped and the body no longer parses. -/
theorem framing_roundtrip_spec :
    (echo_cmd = some (envelopeOf echo_body) ∧
      push_ping_cmd = some (envelopeOf push_ping_body) ∧
      voltage_cmd = some (envelopeOf voltage_body)) ∧
    data_received_cb initRState
        ((echo_cmd.getD []) ++ (push_ping_cmd.getD []) ++ (voltage_cmd.getD [])) =
      (initRState, [echoJson, pushpingJson, voltageJson], Outcome.ok) ∧
    (∀ (st : RState) (frag : Str), cleanFrag frag = true → frag.length + 48 ≤ 4090 →
      activity_cmd frag = some (envelopeOf (activity_body frag)) ∧
      data_received_cb st ((activity_cmd frag).getD []) =
        (st, [activityJson frag], Outcome.ok)) ∧
    (json_loads (activity_body [quoteC]) = none ∧
      data_received_cb initRState ((activity_cmd [quoteC]).getD []) =
        (initRState, [], Outcome.caughtValueError)) := by
  refine ⟨⟨rfl, rfl, rfl⟩, rfl, ?_, rfl, rfl⟩
  intro st frag hclean hlen
  have h45 : (strL ("\x7b\"cmd\":\"activity.recieved\",\"data\":\x7b\"output\":\"")).length = 45 := rfl
  have h3 : (strL ("\"\x7d\x7d")).length = 3 := rfl
  have hblen : (activity_body frag).length = frag.length + 48 := by
    rw [activity_body, List.length_append, List.length_append, h45, h3]
    omega
  have hcmd : activity_cmd frag = some (envelopeOf (activity_body frag)) := by
    simp only [activity_cmd, json_length]
    rw [if_neg (by rw [hblen]; omega)]
    rfl
  refine ⟨hcmd, ?_⟩
  rw [hcmd]
  rw [show (some (envelopeOf (activity_body frag))).getD [] =
    envelopeOf (activity_body frag) from rfl]
  rw [← concatEnvelopes_single (activity_body frag) (activityJson frag)]
  exact data_received_cb_good st st [(activity_body frag, activityJson frag)]
    ⟨rfl, by rw [hblen]; omega, json_loads_activity frag hclean, st, rfl, rfl⟩

/-- Witness for `framing_roundtrip_spec`: the framed activity command for the
fragment `"hi <PA>"` decodes back to the activity object carrying it. -/
theorem framing_roundtrip_spec_witness :
    data_received_cb initRState ((activity_cmd (strL ("hi <PA>"))).getD []) =
      (initRState, [activityJson (strL ("hi <PA>"))], Outcome.ok) :=
  ((framing_roundtrip_spec.2.2.1 initRState (strL ("hi <PA>")) (by decide) (by decide)).2)
